import Mathlib

/-!
Verification of the yt-assorted stitching server (src/server/index.js)
against its specification.

JavaScript strings are modelled as lists of characters, JavaScript numbers
as an inductive over the rationals plus NaN and the two infinities
(exact arithmetic; every value the theorems touch is small enough that the
IEEE double arithmetic of the source is exact on it).  Fallible operations
return Option or Except; the HTTP handlers are modelled as pure functions
from an environment (clock readings, generated identifiers, outcomes of
the spawned external commands) to the ordered trace of observable actions
they perform.
-/

deriving instance DecidableEq for Except

namespace YtStitch

/-- JS strings are modelled as lists of characters. -/
abbrev JSString := List Char

/-- Shorthand turning a Lean string literal into the model string type. -/
def str (s : String) : JSString := s.data

/-- The code points the JS `String.prototype.trim` and `Number` conversion
treat as white space (WhiteSpace and LineTerminator productions). -/
def jsIsWhitespace (c : Char) : Bool :=
  decide (c.toNat = 9 ∨ c.toNat = 10 ∨ c.toNat = 11 ∨ c.toNat = 12 ∨ c.toNat = 13 ∨
    c.toNat = 32 ∨ c.toNat = 160 ∨ c.toNat = 0x1680 ∨
    (0x2000 ≤ c.toNat ∧ c.toNat ≤ 0x200A) ∨
    c.toNat = 0x2028 ∨ c.toNat = 0x2029 ∨ c.toNat = 0x202F ∨
    c.toNat = 0x205F ∨ c.toNat = 0x3000 ∨ c.toNat = 0xFEFF)

/-- Model of `String.prototype.trim`. -/
def jsTrim (s : JSString) : JSString :=
  ((s.dropWhile jsIsWhitespace).reverse.dropWhile jsIsWhitespace).reverse

/-- Numeric value of a decimal digit character. -/
def digitVal (c : Char) : Nat := c.toNat - 48

/-- Value of a string of decimal digits (most significant first). -/
def digitsToNat (s : JSString) : Nat := s.foldl (fun a c => 10 * a + digitVal c) 0

/-- The decimal digit character for `n % 10`. -/
def digitChar (n : Nat) : Char := Char.ofNat (48 + n % 10)

/-- Decimal rendering of a natural number, as produced by the JS
`Number.prototype.toString` on a non-negative integer value. -/
def natToChars (n : Nat) : JSString :=
  if _h : n < 10 then [digitChar n]
  else natToChars (n / 10) ++ [digitChar (n % 10)]
decreasing_by exact Nat.div_lt_self (by omega) (by omega)

/-- Decimal rendering of an integer (minus sign for negatives). -/
def intToChars (i : Int) : JSString :=
  if i < 0 then '-' :: natToChars i.natAbs else natToChars i.toNat

/-- A JavaScript number: NaN, the infinities, or a finite value
(modelled exactly as a rational). -/
inductive JSNum where
  | nan
  | inf
  | negInf
  | val (q : ℚ)
deriving DecidableEq

/-- JS unary minus. -/
def jsNeg : JSNum → JSNum
  | .nan => .nan
  | .inf => .negInf
  | .negInf => .inf
  | .val q => .val (-q)

/-- JS addition. -/
def jsAdd : JSNum → JSNum → JSNum
  | .nan, _ => .nan
  | _, .nan => .nan
  | .inf, .negInf => .nan
  | .negInf, .inf => .nan
  | .inf, _ => .inf
  | _, .inf => .inf
  | .negInf, _ => .negInf
  | _, .negInf => .negInf
  | .val a, .val b => .val (a + b)

/-- JS multiplication. -/
def jsMul : JSNum → JSNum → JSNum
  | .nan, _ => .nan
  | _, .nan => .nan
  | .inf, .inf => .inf
  | .inf, .negInf => .negInf
  | .negInf, .inf => .negInf
  | .negInf, .negInf => .inf
  | .inf, .val q => if 0 < q then .inf else if q < 0 then .negInf else .nan
  | .val q, .inf => if 0 < q then .inf else if q < 0 then .negInf else .nan
  | .negInf, .val q => if 0 < q then .negInf else if q < 0 then .inf else .nan
  | .val q, .negInf => if 0 < q then .negInf else if q < 0 then .inf else .nan
  | .val a, .val b => .val (a * b)

/-- JS subtraction. -/
def jsSub (a b : JSNum) : JSNum := jsAdd a (jsNeg b)

/-- The JS comparison `a >= b` (false whenever either side is NaN). -/
def jsGe : JSNum → JSNum → Bool
  | .nan, _ => false
  | _, .nan => false
  | .inf, _ => true
  | _, .inf => false
  | _, .negInf => true
  | .negInf, _ => false
  | .val a, .val b => decide (b ≤ a)

/-- Hexadecimal digit predicate. -/
def isHexDigit (c : Char) : Bool :=
  c.isDigit || decide ('a' ≤ c ∧ c ≤ 'f') || decide ('A' ≤ c ∧ c ≤ 'F')

/-- Octal digit predicate. -/
def isOctDigit (c : Char) : Bool := decide ('0' ≤ c ∧ c ≤ '7')

/-- Binary digit predicate. -/
def isBinDigit (c : Char) : Bool := c = '0' || c = '1'

/-- Value of one hexadecimal digit. -/
def hexVal (c : Char) : Nat :=
  if c.isDigit then c.toNat - 48
  else if decide ('a' ≤ c) then c.toNat - 87 else c.toNat - 55

/-- Value of a string of hexadecimal digits. -/
def hexToNat (s : JSString) : Nat := s.foldl (fun a c => 16 * a + hexVal c) 0

/-- Value of a string of octal digits. -/
def octToNat (s : JSString) : Nat := s.foldl (fun a c => 8 * a + digitVal c) 0

/-- Value of a string of binary digits. -/
def binToNat (s : JSString) : Nat := s.foldl (fun a c => 2 * a + digitVal c) 0

/-- The characters of the literal `Infinity`. -/
def infinityChars : JSString := str ("Infinity")

/-- Ten to a natural power, written recursively so it evaluates by kernel
reduction. -/
def pow10N : Nat → ℚ
  | 0 => 1
  | k + 1 => 10 * pow10N k

/-- Ten to an integer power. -/
def pow10Z : ℤ → ℚ
  | .ofNat k => pow10N k
  | .negSucc k => 1 / pow10N (k + 1)

/-- Value of an ECMA decimal literal: integer part, fraction part, exponent. -/
def decValue (ip fp : JSString) (e : ℤ) : ℚ :=
  ((digitsToNat ip : ℚ) + (digitsToNat fp : ℚ) / pow10N fp.length) * pow10Z e

/-- Parse the optional ExponentPart that may close a decimal literal; the
whole remainder must be consumed. -/
def parseExpPart (s : JSString) : Option ℤ :=
  match s with
  | [] => some 0
  | c :: rest =>
    if c = 'e' ∨ c = 'E' then
      match rest with
      | [] => none
      | d :: ds =>
        if d = '+' then
          (if ds ≠ [] ∧ ds.all Char.isDigit then some ((digitsToNat ds : ℤ)) else none)
        else if d = '-' then
          (if ds ≠ [] ∧ ds.all Char.isDigit then some (-(digitsToNat ds : ℤ)) else none)
        else if (d :: ds).all Char.isDigit then some ((digitsToNat (d :: ds) : ℤ))
        else none
    else none

/-- Parse an ECMA StrUnsignedDecimalLiteral (`Infinity`, or digits with an
optional fraction and exponent); the whole input must be consumed. -/
def parseUnsignedDec (s : JSString) : Option JSNum :=
  if s = infinityChars then some JSNum.inf
  else
    let ip := s.takeWhile Char.isDigit
    let r1 := s.dropWhile Char.isDigit
    if r1.head? = some '.' then
      let r2 := r1.tail
      let fp := r2.takeWhile Char.isDigit
      let r3 := r2.dropWhile Char.isDigit
      if ip = [] ∧ fp = [] then none
      else (parseExpPart r3).map fun e => JSNum.val (decValue ip fp e)
    else
      if ip = [] then none
      else (parseExpPart r1).map fun e => JSNum.val (decValue ip [] e)

/-- Parse an ECMA StrDecimalLiteral (optional sign before the unsigned part). -/
def parseSignedDec (s : JSString) : Option JSNum :=
  match s with
  | [] => parseUnsignedDec []
  | c :: rest =>
    if c = '+' then parseUnsignedDec rest
    else if c = '-' then (parseUnsignedDec rest).map jsNeg
    else parseUnsignedDec (c :: rest)

/-- Model of the JS `Number(string)` conversion (ECMA StringNumericLiteral):
trimmed empty input is 0, `0x`/`0o`/`0b` prefixes introduce non-decimal
integer literals, anything else must be a signed decimal literal or
`Infinity`; otherwise the result is NaN.  Finite values are kept exactly as
rationals. -/
def jsStringToNumber (s : JSString) : JSNum :=
  let t := jsTrim s
  match t with
  | [] => JSNum.val 0
  | [c] => (parseSignedDec [c]).getD JSNum.nan
  | c1 :: c2 :: rest =>
    if c1 = '0' ∧ (c2 = 'x' ∨ c2 = 'X') then
      (if rest ≠ [] ∧ rest.all isHexDigit then JSNum.val (hexToNat rest) else JSNum.nan)
    else if c1 = '0' ∧ (c2 = 'o' ∨ c2 = 'O') then
      (if rest ≠ [] ∧ rest.all isOctDigit then JSNum.val (octToNat rest) else JSNum.nan)
    else if c1 = '0' ∧ (c2 = 'b' ∨ c2 = 'B') then
      (if rest ≠ [] ∧ rest.all isBinDigit then JSNum.val (binToNat rest) else JSNum.nan)
    else (parseSignedDec (c1 :: c2 :: rest)).getD JSNum.nan

/-- Split a string at every occurrence of a separator character, as the JS
`String.prototype.split` does for a one-character separator. -/
def splitOnChar (sep : Char) : JSString → List JSString
  | [] => [[]]
  | c :: rest =>
    if c = sep then [] :: splitOnChar sep rest
    else
      let r := splitOnChar sep rest
      (c :: r.headI) :: r.tail

/-- Model of `parseTimestamp` (src/server/index.js, lines 40 to 49): null for
a non-string or blank input; a pure-digit string is seconds; otherwise the
input is split on colons, each group converted by `Number`, rejected if any
group is NaN, and combined as MM:SS or HH:MM:SS; any other group count is
null.  The non-string case is modelled by a `none` argument. -/
def parseTimestamp (value : Option JSString) : Option JSNum :=
  match value with
  | none => none
  | some s =>
    let v := jsTrim s
    if v = [] then none
    else if v.all Char.isDigit then some (jsStringToNumber v)
    else
      let parts := (splitOnChar ':' v).map jsStringToNumber
      if parts.any (fun p => decide (p = JSNum.nan)) then none
      else if parts.length = 2 then
        some (jsAdd (jsMul (parts.getD 0 JSNum.nan) (JSNum.val 60)) (parts.getD 1 JSNum.nan))
      else if parts.length = 3 then
        some (jsAdd (jsAdd (jsMul (parts.getD 0 JSNum.nan) (JSNum.val 3600))
                           (jsMul (parts.getD 1 JSNum.nan) (JSNum.val 60)))
                    (parts.getD 2 JSNum.nan))
      else none

/-- Truncation towards zero, as the JS remainder operator divides. -/
def jsTruncQ (q : ℚ) : ℤ := if 0 ≤ q then ⌊q⌋ else ⌈q⌉

/-- The JS remainder `a % b` on finite values (sign follows the dividend). -/
def jsModQ (a b : ℚ) : ℚ := a - b * jsTruncQ (a / b)

/-- `String.prototype.padStart(2, "0")`. -/
def padStart2 (l : JSString) : JSString :=
  if l.length < 2 then List.replicate (2 - l.length) '0' ++ l else l

/-- Model of `formatTimestamp` (src/server/index.js, lines 51 to 56) on a
finite value: zero-padded seconds, minutes and hours joined by colons. -/
def formatTimestamp (seconds : ℚ) : JSString :=
  let s := padStart2 (intToChars ⌊jsModQ seconds 60⌋)
  let m := padStart2 (intToChars ⌊jsModQ (seconds / 60) 60⌋)
  let h := padStart2 (intToChars ⌊seconds / 3600⌋)
  h ++ ':' :: (m ++ ':' :: s)

/-- `formatTimestamp` lifted to JS numbers; on the non-finite values the JS
arithmetic inside the source renders the NaN and Infinity field texts. -/
def formatTimestampNum : JSNum → JSString
  | .val q => formatTimestamp q
  | .inf => str ("Infinity:NaN:NaN")
  | .negInf => str ("-Infinity:NaN:NaN")
  | .nan => str ("NaN:NaN:NaN")

/-! ### Facts about digit strings, trimming and splitting -/

theorem digitChar_isDigit (n : Nat) : (digitChar n).isDigit = true := by
  have h : n % 10 = 0 ∨ n % 10 = 1 ∨ n % 10 = 2 ∨ n % 10 = 3 ∨ n % 10 = 4 ∨ n % 10 = 5 ∨
      n % 10 = 6 ∨ n % 10 = 7 ∨ n % 10 = 8 ∨ n % 10 = 9 := by omega
  unfold digitChar
  rcases h with h | h | h | h | h | h | h | h | h | h <;> rw [h] <;> decide

theorem digitVal_digitChar (n : Nat) : digitVal (digitChar n) = n % 10 := by
  have h : n % 10 = 0 ∨ n % 10 = 1 ∨ n % 10 = 2 ∨ n % 10 = 3 ∨ n % 10 = 4 ∨ n % 10 = 5 ∨
      n % 10 = 6 ∨ n % 10 = 7 ∨ n % 10 = 8 ∨ n % 10 = 9 := by omega
  unfold digitChar digitVal
  rcases h with h | h | h | h | h | h | h | h | h | h <;> rw [h] <;> decide

theorem isDigit_toNat {c : Char} (h : c.isDigit = true) : 48 ≤ c.toNat ∧ c.toNat ≤ 57 := by
  simp only [Char.isDigit, Bool.and_eq_true, decide_eq_true_eq, ge_iff_le] at h
  rcases h with ⟨h1, h2⟩
  exact ⟨UInt32.le_toNat_of_le (by norm_num) h1, UInt32.toNat_le_of_le (by norm_num) h2⟩

theorem jsIsWhitespace_of_isDigit {c : Char} (h : c.isDigit = true) :
    jsIsWhitespace c = false := by
  have hb := isDigit_toNat h
  simp only [jsIsWhitespace, decide_eq_false_iff_not]
  omega

theorem ne_colon_of_isDigit {c : Char} (h : c.isDigit = true) : c ≠ ':' := by
  intro hc
  subst hc
  exact absurd h (by decide)

theorem digitsToNat_from (init : Nat) (l : JSString) :
    l.foldl (fun a c => 10 * a + digitVal c) init = init * 10 ^ l.length + digitsToNat l := by
  induction l generalizing init with
  | nil => simp [digitsToNat]
  | cons c t ih =>
    simp only [List.foldl_cons, List.length_cons, digitsToNat]
    rw [ih (10 * init + digitVal c), ih (10 * 0 + digitVal c)]
    ring

theorem digitsToNat_append (a b : JSString) :
    digitsToNat (a ++ b) = digitsToNat a * 10 ^ b.length + digitsToNat b := by
  unfold digitsToNat
  rw [List.foldl_append]
  exact digitsToNat_from _ b

theorem digitsToNat_natToChars (n : Nat) : digitsToNat (natToChars n) = n := by
  induction n using Nat.strong_induction_on with
  | _ n ih =>
    rw [natToChars]
    split
    · rename_i h
      simp [digitsToNat, digitVal_digitChar]
      omega
    · rename_i h
      rw [digitsToNat_append, ih (n / 10) (Nat.div_lt_self (by omega) (by omega))]
      simp [digitsToNat, digitVal_digitChar]
      omega

theorem natToChars_ne_nil (n : Nat) : natToChars n ≠ [] := by
  rw [natToChars]
  split <;> simp

theorem mem_natToChars_isDigit (n : Nat) : ∀ c ∈ natToChars n, c.isDigit = true := by
  induction n using Nat.strong_induction_on with
  | _ n ih =>
    rw [natToChars]
    split
    · intro c hc
      simp only [List.mem_singleton] at hc
      subst hc
      exact digitChar_isDigit n
    · intro c hc
      rcases List.mem_append.mp hc with h1 | h1
      · exact ih (n / 10) (Nat.div_lt_self (by omega) (by omega)) c h1
      · simp only [List.mem_singleton] at h1
        subst h1
        exact digitChar_isDigit _

theorem natToChars_injective {a b : Nat} (h : natToChars a = natToChars b) : a = b := by
  have ha := digitsToNat_natToChars a
  rw [h, digitsToNat_natToChars] at ha
  omega

theorem digitsToNat_cons_zero (l : JSString) : digitsToNat ('0' :: l) = digitsToNat l := by
  unfold digitsToNat
  simp only [List.foldl_cons]
  have h0 : 10 * 0 + digitVal '0' = 0 := by decide
  rw [h0]

theorem digitsToNat_replicate_zero (k : Nat) : digitsToNat (List.replicate k '0') = 0 := by
  induction k with
  | zero => rfl
  | succ k ih => rw [List.replicate_succ, digitsToNat_cons_zero, ih]

theorem digitsToNat_padStart2 (l : JSString) : digitsToNat (padStart2 l) = digitsToNat l := by
  unfold padStart2
  split
  · rw [digitsToNat_append, digitsToNat_replicate_zero]
    simp
  · rfl

theorem padStart2_ne_nil (l : JSString) : padStart2 l ≠ [] := by
  unfold padStart2
  split
  · rename_i h
    intro hc
    rcases List.append_eq_nil.mp hc with ⟨h1, _⟩
    rw [List.replicate_eq_nil_iff] at h1
    omega
  · rename_i h
    intro hc
    subst hc
    simp at h

theorem mem_padStart2 {l : JSString} {c : Char} (hc : c ∈ padStart2 l) : c = '0' ∨ c ∈ l := by
  unfold padStart2 at hc
  split at hc
  · rcases List.mem_append.mp hc with h | h
    · exact Or.inl (List.eq_of_mem_replicate h)
    · exact Or.inr h
  · exact Or.inr hc

theorem dropWhile_eq_self_of_all {p : Char → Bool} {l : JSString}
    (h : ∀ c ∈ l, p c = false) : l.dropWhile p = l := by
  cases l with
  | nil => rfl
  | cons c t =>
    rw [List.dropWhile_cons]
    simp [h c (List.mem_cons_self c t)]

theorem jsTrim_eq_self {l : JSString} (h : ∀ c ∈ l, jsIsWhitespace c = false) :
    jsTrim l = l := by
  unfold jsTrim
  rw [dropWhile_eq_self_of_all h,
      dropWhile_eq_self_of_all (fun c hc => h c (List.mem_reverse.mp hc)),
      List.reverse_reverse]

theorem takeWhile_eq_self_of_all {p : Char → Bool} {l : JSString}
    (h : ∀ c ∈ l, p c = true) : l.takeWhile p = l := by
  induction l with
  | nil => rfl
  | cons c t ih =>
    rw [List.takeWhile_cons]
    simp only [h c (List.mem_cons_self c t), if_true]
    rw [ih fun d hd => h d (List.mem_cons_of_mem c hd)]

theorem dropWhile_eq_nil_of_all {p : Char → Bool} {l : JSString}
    (h : ∀ c ∈ l, p c = true) : l.dropWhile p = [] := by
  induction l with
  | nil => rfl
  | cons c t ih =>
    rw [List.dropWhile_cons]
    simp only [h c (List.mem_cons_self c t), if_true]
    exact ih fun d hd => h d (List.mem_cons_of_mem c hd)

theorem splitOnChar_cons (sep c : Char) (rest : JSString) :
    splitOnChar sep (c :: rest) =
      if c = sep then [] :: splitOnChar sep rest
      else (c :: (splitOnChar sep rest).headI) :: (splitOnChar sep rest).tail := rfl

theorem splitOnChar_no_sep {sep : Char} {l : JSString} (h : ∀ c ∈ l, c ≠ sep) :
    splitOnChar sep l = [l] := by
  induction l with
  | nil => rfl
  | cons c t ih =>
    rw [splitOnChar_cons, if_neg (h c (List.mem_cons_self c t)),
        ih fun d hd => h d (List.mem_cons_of_mem c hd)]
    simp

theorem splitOnChar_append {sep : Char} {a rest : JSString} (h : ∀ c ∈ a, c ≠ sep) :
    splitOnChar sep (a ++ sep :: rest) = a :: splitOnChar sep rest := by
  induction a with
  | nil =>
    simp only [List.nil_append]
    rw [splitOnChar_cons, if_pos rfl]
  | cons c t ih =>
    simp only [List.cons_append]
    rw [splitOnChar_cons, if_neg (h c (List.mem_cons_self c t)),
        ih fun d hd => h d (List.mem_cons_of_mem c hd)]
    simp

/-! ### The JS Number conversion on pure digit strings -/

theorem decValue_digits (l : JSString) : decValue l [] 0 = (digitsToNat l : ℚ) := by
  unfold decValue
  have h1 : pow10Z 0 = 1 := rfl
  have h2 : digitsToNat ([] : JSString) = 0 := rfl
  have h3 : pow10N (List.length ([] : JSString)) = 1 := rfl
  rw [h1, h2, h3]
  norm_num

theorem parseUnsignedDec_digits {l : JSString} (hne : l ≠ [])
    (h : ∀ c ∈ l, c.isDigit = true) :
    parseUnsignedDec l = some (JSNum.val (digitsToNat l)) := by
  have hI : l ≠ infinityChars := by
    intro hc
    have hmem : 'I' ∈ l := by rw [hc]; decide
    exact absurd (h 'I' hmem) (by decide)
  simp only [parseUnsignedDec, if_neg hI, takeWhile_eq_self_of_all h,
    dropWhile_eq_nil_of_all h, List.head?_nil]
  simp only [reduceCtorEq, if_false, if_neg hne, parseExpPart]
  simp [decValue_digits]

theorem parseSignedDec_digits {l : JSString} (hne : l ≠ [])
    (h : ∀ c ∈ l, c.isDigit = true) :
    parseSignedDec l = some (JSNum.val (digitsToNat l)) := by
  cases l with
  | nil => exact absurd rfl hne
  | cons c t =>
    have hc := h c (List.mem_cons_self c t)
    have hplus : c ≠ '+' := by intro hx; subst hx; exact absurd hc (by decide)
    have hminus : c ≠ '-' := by intro hx; subst hx; exact absurd hc (by decide)
    simp only [parseSignedDec, if_neg hplus, if_neg hminus]
    exact parseUnsignedDec_digits (by simp) h

theorem jsStringToNumber_digits {l : JSString} (hne : l ≠ [])
    (h : ∀ c ∈ l, c.isDigit = true) :
    jsStringToNumber l = JSNum.val (digitsToNat l) := by
  have htrim : jsTrim l = l := jsTrim_eq_self fun c hc => jsIsWhitespace_of_isDigit (h c hc)
  simp only [jsStringToNumber, htrim]
  cases l with
  | nil => exact absurd rfl hne
  | cons c t =>
    cases t with
    | nil =>
      simp only []
      rw [parseSignedDec_digits (by simp) h]
      rfl
    | cons c2 t2 =>
      have hc2 := h c2 (by simp)
      have hx : ¬(c = '0' ∧ (c2 = 'x' ∨ c2 = 'X')) := by
        rintro ⟨-, hc | hc⟩ <;> subst hc <;> exact absurd hc2 (by decide)
      have ho : ¬(c = '0' ∧ (c2 = 'o' ∨ c2 = 'O')) := by
        rintro ⟨-, hc | hc⟩ <;> subst hc <;> exact absurd hc2 (by decide)
      have hb : ¬(c = '0' ∧ (c2 = 'b' ∨ c2 = 'B')) := by
        rintro ⟨-, hc | hc⟩ <;> subst hc <;> exact absurd hc2 (by decide)
      simp only [if_neg hx, if_neg ho, if_neg hb]
      rw [parseSignedDec_digits (by simp) h]
      rfl

/-! ### The timestamp codec round trip -/

theorem floor_natCast_div (n d : ℕ) (hd : 0 < d) :
    ⌊(n : ℚ) / (d : ℚ)⌋ = ((n / d : ℕ) : ℤ) := by
  have hdq : (0 : ℚ) < (d : ℚ) := by exact_mod_cast hd
  rw [Int.floor_eq_iff]
  constructor
  · rw [le_div_iff₀ hdq]
    have hle : (n / d) * d ≤ n := Nat.div_mul_le_self n d
    exact_mod_cast hle
  · rw [div_lt_iff₀ hdq]
    have hlt : n < (n / d + 1) * d := by
      have hmod := Nat.mod_lt n hd
      have hdm := Nat.div_add_mod n d
      calc n = d * (n / d) + n % d := hdm.symm
        _ < d * (n / d) + d := by omega
        _ = (n / d + 1) * d := by ring
    exact_mod_cast hlt

theorem jsTruncQ_nonneg {q : ℚ} (h : 0 ≤ q) : jsTruncQ q = ⌊q⌋ := by
  unfold jsTruncQ
  rw [if_pos h]

theorem floor_jsModQ_natCast (n : ℕ) : ⌊jsModQ (n : ℚ) 60⌋ = ((n % 60 : ℕ) : ℤ) := by
  unfold jsModQ
  rw [jsTruncQ_nonneg (by positivity)]
  rw [show ((60 : ℚ)) = ((60 : ℕ) : ℚ) by norm_num, floor_natCast_div n 60 (by omega)]
  have hcast : (((n / 60 : ℕ) : ℤ) : ℚ) = ((n / 60 : ℕ) : ℚ) := by exact_mod_cast rfl
  rw [hcast]
  have hq : ((n : ℕ) : ℚ) = ((60 * (n / 60) + n % 60 : ℕ) : ℚ) :=
    congrArg (fun k : ℕ => (k : ℚ)) (Nat.div_add_mod n 60).symm
  push_cast at hq
  have hval : (n : ℚ) - ((60 : ℕ) : ℚ) * ((n / 60 : ℕ) : ℚ) = ((n % 60 : ℕ) : ℚ) := by
    push_cast
    linarith
  rw [hval, Int.floor_natCast]

theorem floor_jsModQ_div_natCast (n : ℕ) :
    ⌊jsModQ ((n : ℚ) / 60) 60⌋ = ((n / 60 % 60 : ℕ) : ℤ) := by
  unfold jsModQ
  have h3600 : ((n : ℚ) / 60) / 60 = (n : ℚ) / 3600 := by
    rw [div_div]
    norm_num
  rw [h3600, jsTruncQ_nonneg (by positivity)]
  rw [show ((3600 : ℚ)) = ((3600 : ℕ) : ℚ) by norm_num, floor_natCast_div n 3600 (by omega)]
  have h1 : (((n / 3600 : ℕ) : ℤ) : ℚ) = ((n / 3600 : ℕ) : ℚ) := by exact_mod_cast rfl
  have h2 : (((60 * (n / 3600) : ℕ) : ℤ) : ℚ) = (60 : ℚ) * ((n / 3600 : ℕ) : ℚ) := by
    exact_mod_cast rfl
  have hsub : (n : ℚ) / 60 - (60 : ℚ) * (((n / 3600 : ℕ) : ℤ) : ℚ) =
      (n : ℚ) / 60 - (((60 * (n / 3600) : ℕ) : ℤ) : ℚ) := by
    rw [h1, h2]
  rw [hsub, Int.floor_sub_int]
  rw [show ((60 : ℚ)) = ((60 : ℕ) : ℚ) by norm_num, floor_natCast_div n 60 (by omega)]
  omega

theorem floor_div_3600_natCast (n : ℕ) : ⌊(n : ℚ) / 3600⌋ = ((n / 3600 : ℕ) : ℤ) := by
  rw [show ((3600 : ℚ)) = ((3600 : ℕ) : ℚ) by norm_num]
  exact floor_natCast_div n 3600 (by omega)

theorem intToChars_natCast (k : ℕ) : intToChars ((k : ℕ) : ℤ) = natToChars k := by
  unfold intToChars
  rw [if_neg (by omega)]
  simp

theorem formatTimestamp_natCast (n : ℕ) :
    formatTimestamp (n : ℚ) =
      padStart2 (natToChars (n / 3600)) ++ ':' ::
        (padStart2 (natToChars (n / 60 % 60)) ++ ':' :: padStart2 (natToChars (n % 60))) := by
  unfold formatTimestamp
  rw [floor_jsModQ_natCast, floor_jsModQ_div_natCast, floor_div_3600_natCast,
      intToChars_natCast, intToChars_natCast, intToChars_natCast]

theorem mem_padStart2_natToChars_isDigit (k : ℕ) :
    ∀ c ∈ padStart2 (natToChars k), c.isDigit = true := by
  intro c hc
  rcases mem_padStart2 hc with h | h
  · subst h; decide
  · exact mem_natToChars_isDigit k c h

theorem parseTimestamp_three {H M S : JSString}
    (hHne : H ≠ []) (hMne : M ≠ []) (hSne : S ≠ [])
    (hH : ∀ c ∈ H, c.isDigit = true) (hM : ∀ c ∈ M, c.isDigit = true)
    (hS : ∀ c ∈ S, c.isDigit = true) :
    parseTimestamp (some (H ++ ':' :: (M ++ ':' :: S))) =
      some (JSNum.val ((digitsToNat H : ℚ) * 3600 + (digitsToNat M : ℚ) * 60 +
        (digitsToNat S : ℚ))) := by
  set v : JSString := H ++ ':' :: (M ++ ':' :: S) with hv
  have hmemv : ∀ c ∈ v, c.isDigit = true ∨ c = ':' := by
    intro c hc
    rw [hv] at hc
    rcases List.mem_append.mp hc with h | h
    · exact Or.inl (hH c h)
    · rcases List.mem_cons.mp h with h | h
      · exact Or.inr h
      · rcases List.mem_append.mp h with h | h
        · exact Or.inl (hM c h)
        · rcases List.mem_cons.mp h with h | h
          · exact Or.inr h
          · exact Or.inl (hS c h)
  have htrim : jsTrim v = v := by
    apply jsTrim_eq_self
    intro c hc
    rcases hmemv c hc with h | h
    · exact jsIsWhitespace_of_isDigit h
    · subst h; decide
  have hvne : v ≠ [] := by
    rw [hv]
    cases H <;> simp
  have hcolon : ':' ∈ v := by
    rw [hv]
    simp
  have hnotall : v.all Char.isDigit = false := by
    rw [List.all_eq_false]
    exact ⟨':', hcolon, by decide⟩
  have hsplit : splitOnChar ':' v = [H, M, S] := by
    rw [hv, splitOnChar_append (fun c hc => ne_colon_of_isDigit (hH c hc)),
        splitOnChar_append (fun c hc => ne_colon_of_isDigit (hM c hc)),
        splitOnChar_no_sep (fun c hc => ne_colon_of_isDigit (hS c hc))]
  unfold parseTimestamp
  simp only [htrim, if_neg hvne, hnotall, Bool.false_eq_true, if_false, hsplit]
  simp only [List.map_cons, List.map_nil]
  rw [jsStringToNumber_digits hHne hH, jsStringToNumber_digits hMne hM,
      jsStringToNumber_digits hSne hS]
  simp only [List.any_cons, List.any_nil]
  norm_num [jsMul, jsAdd]
  rintro (h | h | h) <;> simp at h

/-- C1: timestamp codec round trip.  For every non-negative integer number of
seconds `n`, parsing the string produced by `formatTimestamp` recovers `n`,
including values at or above 100 hours where the hour field has more than two
digits. -/
theorem timestamp_roundtrip (n : ℕ) :
    parseTimestamp (some (formatTimestamp (n : ℚ))) = some (JSNum.val (n : ℚ)) := by
  rw [formatTimestamp_natCast]
  rw [parseTimestamp_three (padStart2_ne_nil _) (padStart2_ne_nil _) (padStart2_ne_nil _)
      (mem_padStart2_natToChars_isDigit _) (mem_padStart2_natToChars_isDigit _)
      (mem_padStart2_natToChars_isDigit _)]
  rw [digitsToNat_padStart2, digitsToNat_padStart2, digitsToNat_padStart2,
      digitsToNat_natToChars, digitsToNat_natToChars, digitsToNat_natToChars]
  congr 2
  have key : n / 3600 * 3600 + n / 60 % 60 * 60 + n % 60 = n := by omega
  exact_mod_cast congrArg (fun k : ℕ => (k : ℚ)) key

/-! ### C2: what the parser actually rejects -/

/-- C2 counterexample: the parser does not return null for an empty,
fractional or negative colon group — `Number` converts the empty string to 0
and converts fractional and negative groups to their numeric values, so
`":30"` parses to 30, `"1.5:30"` to 120 and `"-1:30"` to -30. -/
theorem parse_accepts_malformed_groups :
    parseTimestamp (some (str (":30"))) = some (JSNum.val 30) ∧
    parseTimestamp (some (str ("1.5:30"))) = some (JSNum.val 120) ∧
    parseTimestamp (some (str ("-1:30"))) = some (JSNum.val (-30)) := by
  refine ⟨by with_unfolding_all decide, by with_unfolding_all decide,
    by with_unfolding_all decide⟩

/-- C2 amended: the parser returns null exactly when the input is not a
string, is blank after trimming, or — when the trimmed input is not a pure
digit string — when some colon group fails the JS numeric conversion (NaN)
or the number of colon groups is neither 2 nor 3.  A group that converts to
a number (including the empty group, which converts to 0, and fractional or
negative groups) is accepted. -/
theorem parseTimestamp_none_iff (s : JSString) :
    parseTimestamp none = none ∧
    (parseTimestamp (some s) = none ↔
      (jsTrim s = [] ∨
       ((jsTrim s).all Char.isDigit = false ∧
        (((splitOnChar ':' (jsTrim s)).map jsStringToNumber).any
            (fun p => decide (p = JSNum.nan)) = true ∨
         ((splitOnChar ':' (jsTrim s)).length ≠ 2 ∧
          (splitOnChar ':' (jsTrim s)).length ≠ 3))))) := by
  refine ⟨rfl, ?_⟩
  simp only [parseTimestamp]
  split_ifs with h1 h2 h3 h4 h5 <;> simp_all

/-! ### The request orchestrator (src/server/index.js, lines 78 to 150)

The handler is modelled as a pure function from the request body and an
environment — the generated job id, the freshly created temp directory, the
two `Date.now()` readings and the outcome of each spawned external command —
to the ordered list of observable actions it performs.  Filesystem writes
are modelled as succeeding; external commands may fail (spawn error or
nonzero exit), which is the failure mode the error-handling claims are
about. -/

/-- One segment row of the request body.  A `none` field models an absent or
non-string JSON value (the code guards every field with a typeof check or a
parse returning null). -/
structure SegmentInput where
  url : Option JSString
  start : Option JSString
  /-- The `end` field of the source object (`end` is a Lean keyword). -/
  endTs : Option JSString
deriving DecidableEq

/-- A validated segment, as pushed onto `parsed`. -/
structure ParsedSegment where
  url : JSString
  start : JSNum
  endTs : JSNum
deriving DecidableEq

/-- The registry value stored by `jobs.set` (src/server/index.js, line 140). -/
structure JobInfo where
  path : JSString
  created : Nat
  tempDir : JSString
deriving DecidableEq

/-- The streamed progress events (`writeLine` payloads). -/
inductive ProgressEvent where
  | status (stage message : JSString)
  | log (channel message : JSString)
  | error (message : JSString)
  | done (downloadId downloadUrl : JSString)
deriving DecidableEq

/-- Observable actions of the HTTP handlers, in program order. -/
inductive Action where
  | setHeader (name value : JSString)
  | flushHeaders
  | writeEvent (e : ProgressEvent)
  | mkTempDir (dir : JSString)
  | extCall (cmd : JSString) (args : List JSString)
  | writeFile (path content : JSString)
  | copyFile (src dst : JSString)
  | registryInsert (id : JSString) (info : JobInfo)
  | removeFile (path : JSString)
  | removeDir (dir : JSString)
  | setStatus (code : Nat)
  | sendJson (body : JSString)
  | sendFile (path : JSString)
  | endResponse
deriving DecidableEq

def Action.isExtCall : Action → Bool
  | .extCall _ _ => true
  | _ => false

def Action.isErrorEvent : Action → Bool
  | .writeEvent (.error _) => true
  | _ => false

def Action.isDoneEvent : Action → Bool
  | .writeEvent (.done _ _) => true
  | _ => false

def Action.isRegistryInsert : Action → Bool
  | .registryInsert _ _ => true
  | _ => false

def Action.isRemoveDir : Action → Bool
  | .removeDir _ => true
  | _ => false

def Action.isSetStatus : Action → Bool
  | .setStatus _ => true
  | _ => false

def Action.isMkTempDir : Action → Bool
  | .mkTempDir _ => true
  | _ => false

/-- What the operating system delivered for one spawned command: an optional
spawn failure, the exit code, and the stdout/stderr data chunks in arrival
order (`true` marks a stderr chunk). -/
structure ProcOutcome where
  spawnError : Option JSString
  exitCode : Nat
  chunks : List (Bool × JSString)
deriving DecidableEq

def ProcOutcome.stdout (o : ProcOutcome) : JSString :=
  ((o.chunks.filter fun c => !c.1).map Prod.snd).flatten

def ProcOutcome.stderr (o : ProcOutcome) : JSString :=
  ((o.chunks.filter fun c => c.1).map Prod.snd).flatten

/-- Model of `runCommand` (src/server/index.js, lines 58 to 76): a spawn
error rejects with the OS error; exit code 0 resolves with the trimmed
captured stdout; a nonzero exit rejects with the captured stderr, or a
generic message naming the command when stderr is empty. -/
def runCommand (cmd : JSString) (o : ProcOutcome) : Except JSString JSString :=
  match o.spawnError with
  | some e => .error e
  | none =>
    if o.exitCode = 0 then .ok (jsTrim o.stdout)
    else .error (if o.stderr = [] then str ("Command failed: ") ++ cmd else o.stderr)

/-- The `log` events produced by the data callbacks of one command. -/
def logEvents (o : ProcOutcome) : List Action :=
  o.chunks.map fun c =>
    Action.writeEvent (.log (if c.1 then str ("stderr") else str ("stdout")) c.2)

/-- The per-request environment: generated identifiers, clock readings and
the outcome of the k-th external command spawned by this request. -/
structure Env where
  uuid : JSString
  tempDir : JSString
  proc : Nat → ProcOutcome
  nowFinal : Nat
  nowCreated : Nat

/-- `seg.url` after the typeof guard and trim (line 92). -/
def urlOf (seg : SegmentInput) : JSString :=
  match seg.url with
  | some s => jsTrim s
  | none => []

def rowErrorMsg (index : Nat) (tail : JSString) : JSString :=
  str ("Row ") ++ natToChars (index + 1) ++ tail

/-- The validation loop (src/server/index.js, lines 90 to 104): for each row
in order, an empty or missing URL reports `Row k: URL required`; a start or
end that parses to null, or `start >= end`, reports `Row k: Invalid
timestamps`; the first failing row ends the request. -/
def validateSegments : List SegmentInput → Nat → Except JSString (List ParsedSegment)
  | [], _ => .ok []
  | seg :: rest, index =>
    let url := urlOf seg
    if url = [] then .error (rowErrorMsg index (str (": URL required")))
    else
      match parseTimestamp seg.start, parseTimestamp seg.endTs with
      | some s, some e =>
        if jsGe s e then .error (rowErrorMsg index (str (": Invalid timestamps")))
        else
          match validateSegments rest (index + 1) with
          | .error msg => .error msg
          | .ok parsedRest => .ok (⟨url, s, e⟩ :: parsedRest)
      | _, _ => .error (rowErrorMsg index (str (": Invalid timestamps")))

/-- Whether one row fails the validation checks of lines 95 to 102. -/
def rowInvalid (seg : SegmentInput) : Bool :=
  decide (urlOf seg = []) ||
    (match parseTimestamp seg.start, parseTimestamp seg.endTs with
     | some s, some e => jsGe s e
     | _, _ => true)

/-- The message tail the failing row produces. -/
def rowMsgTail (seg : SegmentInput) : JSString :=
  if urlOf seg = [] then str (": URL required") else str (": Invalid timestamps")

def publicDir : JSString := str ("server/public")

def quoteChar : Char := Char.ofNat 39

def backslashChar : Char := Char.ofNat 92

def newlineChar : Char := Char.ofNat 10

/-- Rendering of a JS number as an argument string.  Exact for NaN, the
infinities and integer-valued rationals (the only values the theorems
evaluate); a non-integral rational is rendered as numerator, slash,
denominator, standing in for the JS float printing no theorem depends on. -/
def jsNumToChars : JSNum → JSString
  | .nan => str ("NaN")
  | .inf => str ("Infinity")
  | .negInf => str ("-Infinity")
  | .val q => if q.den = 1 then intToChars q.num else intToChars q.num ++ '/' :: natToChars q.den

def ytDlpArgs (u : JSString) : List JSString :=
  [str ("-f"), str ("best"), str ("-g"), u]

def segmentFilePath (tempDir : JSString) (idx : Nat) : JSString :=
  tempDir ++ str ("/segment-") ++ natToChars idx ++ str (".mp4")

def ffmpegCutArgs (startv : JSNum) (directUrl : JSString) (dur : JSNum)
    (dest : JSString) : List JSString :=
  [str ("-ss"), jsNumToChars startv, str ("-i"), directUrl, str ("-t"), jsNumToChars dur,
   str ("-c"), str ("copy"), str ("-avoid_negative_ts"), str ("make_zero"), str ("-y"), dest]

def ffmpegConcatArgs (listPath outputPath : JSString) : List JSString :=
  [str ("-f"), str ("concat"), str ("-safe"), str ("0"), str ("-i"), listPath,
   str ("-c"), str ("copy"), str ("-y"), outputPath]

/-- The quote escaping of line 131: each quote becomes quote backslash
quote quote. -/
def escapeQuote (p : JSString) : JSString :=
  p.flatMap fun c =>
    if c = quoteChar then [quoteChar, backslashChar, quoteChar, quoteChar] else [c]

/-- One line of the concat manifest. -/
def concatListLine (p : JSString) : JSString :=
  str ("file ") ++ quoteChar :: (escapeQuote p ++ [quoteChar])

def finalName (now : Nat) : JSString :=
  str ("stitch-") ++ natToChars now ++ str (".mp4")

def finalPath (now : Nat) : JSString := publicDir ++ '/' :: finalName now

/-- Result of the per-segment loop: its actions, the number of external
commands consumed, and the collected segment paths or the first failure. -/
structure LoopOut where
  acts : List Action
  nextCall : Nat
  result : Except JSString (List JSString)

/-- The `k/total` label of line 118. -/
def segLabel (idx total : Nat) : JSString :=
  natToChars (idx + 1) ++ '/' :: natToChars total

/-- The resolving status event and the yt-dlp invocation of lines 119
and 120, with the log events of its streamed output. -/
def resolveActs (env : Env) (total idx callIdx : Nat) (seg : ParsedSegment) : List Action :=
  Action.writeEvent
      (.status (str ("resolving")) (str ("Resolving segment ") ++ segLabel idx total)) ::
    Action.extCall (str ("yt-dlp")) (ytDlpArgs seg.url) :: logEvents (env.proc callIdx)

/-- The downloading status event and the ffmpeg cut invocation of lines 121
to 124, with the log events of its streamed output. -/
def cutActs (env : Env) (total idx callIdx : Nat) (seg : ParsedSegment)
    (directUrl : JSString) : List Action :=
  Action.writeEvent
      (.status (str ("downloading")) (str ("Downloading segment ") ++ segLabel idx total)) ::
    Action.extCall (str ("ffmpeg"))
      (ffmpegCutArgs seg.start directUrl (jsSub seg.endTs seg.start)
        (segmentFilePath env.tempDir idx)) ::
    logEvents (env.proc (callIdx + 1))

/-- The downloaded status event of line 126. -/
def downloadedAct (total idx : Nat) (seg : ParsedSegment) : Action :=
  Action.writeEvent (.status (str ("downloaded"))
    (str ("Segment ") ++ segLabel idx total ++ str (" ready (") ++
      formatTimestampNum seg.start ++ '-' :: (formatTimestampNum seg.endTs ++ [')'])))

/-- The per-segment loop of lines 117 to 127: resolve via yt-dlp, then cut
via ffmpeg, collecting segment file paths; the first failing command aborts
the loop with its error. -/
def runSegLoop (env : Env) (total : Nat) :
    List ParsedSegment → Nat → Nat → List JSString → LoopOut
  | [], _, callIdx, acc => ⟨[], callIdx, .ok acc.reverse⟩
  | seg :: rest, idx, callIdx, acc =>
    match runCommand (str ("yt-dlp")) (env.proc callIdx) with
    | .error e => ⟨resolveActs env total idx callIdx seg, callIdx + 1, .error e⟩
    | .ok directUrl =>
      match runCommand (str ("ffmpeg")) (env.proc (callIdx + 1)) with
      | .error e =>
        ⟨resolveActs env total idx callIdx seg ++ cutActs env total idx callIdx seg directUrl,
         callIdx + 2, .error e⟩
      | .ok _ =>
        ⟨resolveActs env total idx callIdx seg ++ cutActs env total idx callIdx seg directUrl ++
           [downloadedAct total idx seg] ++
           (runSegLoop env total rest (idx + 1) (callIdx + 2)
             (segmentFilePath env.tempDir idx :: acc)).acts,
         (runSegLoop env total rest (idx + 1) (callIdx + 2)
           (segmentFilePath env.tempDir idx :: acc)).nextCall,
         (runSegLoop env total rest (idx + 1) (callIdx + 2)
           (segmentFilePath env.tempDir idx :: acc)).result⟩

/-- The segment loop of one request, started as on line 117. -/
def segPart (env : Env) (parsed : List ParsedSegment) : LoopOut :=
  runSegLoop env parsed.length parsed 0 0 []

/-- The catch block of lines 142 to 147: one terminal error event carrying
the failure message (or the generic fallback when it is empty), then a
best-effort recursive removal of the temp directory; a failure of the
removal itself is swallowed, so the trace continues regardless. -/
def catchActions (env : Env) (e : JSString) : List Action :=
  [Action.writeEvent (.error (if e = [] then str ("Processing failed") else e)),
   Action.removeDir env.tempDir]

/-- The path of the concat manifest (line 130). -/
def listFilePath (env : Env) : JSString := env.tempDir ++ str ("/concat-list.txt")

/-- The path of the stitched output inside the temp directory (line 133). -/
def stitchOutputPath (env : Env) : JSString := env.tempDir ++ str ("/stitched.mp4")

/-- The stitching status event, the manifest write and the ffmpeg concat
invocation of lines 129 to 134, with the log events of its output. -/
def stitchActs (env : Env) (nextCall : Nat) (segPaths : List JSString) : List Action :=
  Action.writeEvent (.status (str ("stitching")) (str ("Stitching segments"))) ::
    Action.writeFile (listFilePath env)
      (List.intercalate [newlineChar] (segPaths.map concatListLine)) ::
    Action.extCall (str ("ffmpeg")) (ffmpegConcatArgs (listFilePath env) (stitchOutputPath env)) ::
    logEvents (env.proc nextCall)

/-- The success tail of lines 136 to 141: copy the stitched output to the
public directory under the generated name, insert the job, emit `done`. -/
def successTail (env : Env) : List Action :=
  [Action.copyFile (stitchOutputPath env) (finalPath env.nowFinal),
   Action.registryInsert env.uuid ⟨finalPath env.nowFinal, env.nowCreated, env.tempDir⟩,
   Action.writeEvent (.done env.uuid (str ("/api/download/") ++ env.uuid))]

/-- The try block of lines 116 to 141: run the segment loop; on success
write the concat manifest, run ffmpeg concat, copy the stitched output to
the public directory under `stitch-` Date.now `.mp4`, insert the job, and
emit `done`; any failure falls to the catch block. -/
def tryBlock (env : Env) (parsed : List ParsedSegment) : List Action :=
  match (segPart env parsed).result with
  | .error e => (segPart env parsed).acts ++ catchActions env e
  | .ok segPaths =>
    match runCommand (str ("ffmpeg")) (env.proc (segPart env parsed).nextCall) with
    | .error e =>
      (segPart env parsed).acts ++ stitchActs env (segPart env parsed).nextCall segPaths ++
        catchActions env e
    | .ok _ =>
      (segPart env parsed).acts ++ stitchActs env (segPart env parsed).nextCall segPaths ++
        successTail env

/-- The first failure of the post-validation pipeline under `env`, if any. -/
def pipelineError (env : Env) (parsed : List ParsedSegment) : Option JSString :=
  match (segPart env parsed).result with
  | .error e => some e
  | .ok _ =>
    match runCommand (str ("ffmpeg")) (env.proc (segPart env parsed).nextCall) with
    | .error e => some e
    | .ok _ => none

/-- The `segments` field of the request body: absent (or an absent body),
present but not an array, or an array of rows. -/
inductive SegmentsField where
  | missing
  | notArray
  | arr (segs : List SegmentInput)

/-- Line 84: a missing or non-array field collapses to the empty list. -/
def segmentsOf : SegmentsField → List SegmentInput
  | .arr l => l
  | .missing => []
  | .notArray => []

/-- Lines 79 to 82: the streaming headers, sent before anything else. -/
def headerActions : List Action :=
  [Action.setHeader (str ("Content-Type")) (str ("application/x-ndjson")),
   Action.setHeader (str ("Cache-Control")) (str ("no-cache")),
   Action.setHeader (str ("Connection")) (str ("keep-alive")),
   Action.flushHeaders]

/-- The body of the process handler after the headers: empty-batch check,
validation loop, temp-directory creation, the starting status event, the
try/catch pipeline, and the final end of the response stream. -/
def processAfterHeaders (env : Env) (f : SegmentsField) : List Action :=
  if (segmentsOf f).isEmpty then
    [Action.writeEvent (.error (str ("No segments provided"))), Action.endResponse]
  else
    match validateSegments (segmentsOf f) 0 with
    | .error msg => [Action.writeEvent (.error msg), Action.endResponse]
    | .ok parsed =>
      Action.mkTempDir env.tempDir ::
      Action.writeEvent (.status (str ("starting")) (str ("Validating inputs"))) ::
      (tryBlock env parsed ++ [Action.endResponse])

/-- Model of `app.post` on `/api/process` (src/server/index.js, lines 78
to 150). -/
def processHandler (env : Env) (f : SegmentsField) : List Action :=
  headerActions ++ processAfterHeaders env f

/-! ### The job registry, eviction, and the download handler -/

/-- The in-memory `jobs` map, as an association list in insertion order. -/
abbrev Registry := List (JSString × JobInfo)

def lookupJob (jobs : Registry) (id : JSString) : Option JobInfo :=
  match jobs.find? fun kv => decide (kv.1 = id) with
  | some kv => some kv.2
  | none => none

/-- The retention window of line 23: one hour in milliseconds. -/
def retentionMs : Nat := 60 * 60 * 1000

/-- The eviction period of line 34: fifteen minutes in milliseconds. -/
def cleanupIntervalMs : Nat := 15 * 60 * 1000

/-- Whether an entry is evicted at time `now`: `info.created < now - 1h`.
Truncated Nat subtraction agrees with the JS comparison, since a negative
cutoff admits no non-negative creation time. -/
def jobExpired (now : Nat) (info : JobInfo) : Bool :=
  decide (info.created < now - retentionMs)

/-- Model of `cleanupOldJobs` (src/server/index.js, lines 22 to 33): every
expired entry has its artifact removed, its temp directory removed when the
field is non-empty (deletion errors are swallowed), and is dropped from the
map unconditionally.  Removals are modelled as attempts that succeed; in the
source a throwing removal would skip the remaining removal of that entry but
the entry is still dropped. -/
def cleanupOldJobs (now : Nat) (jobs : Registry) : Registry × List Action :=
  ((jobs.filter fun kv => !jobExpired now kv.2),
   (jobs.filter fun kv => jobExpired now kv.2).flatMap fun kv =>
     Action.removeFile kv.2.path ::
       (if kv.2.tempDir = [] then [] else [Action.removeDir kv.2.tempDir]))

/-- Model of `app.get` on `/api/download/:id` (src/server/index.js, lines
152 to 158): an id absent from the map gets status 404 with a JSON error
body; a present id gets the artifact as a file download, with status 500
when the transfer itself fails. -/
def downloadHandler (jobs : Registry) (id : JSString) (transferFails : Bool) : List Action :=
  match lookupJob jobs id with
  | none => [Action.setStatus 404, Action.sendJson (str ("Not found"))]
  | some info =>
    Action.sendFile info.path :: (if transferFails then [Action.setStatus 500] else [])

/-! ### Shape of the pipeline trace -/

/-- The only actions the segment loop and the stitch preamble perform:
status events, log events, external calls and file writes. -/
def midActShape : Action → Bool
  | .writeEvent (.status _ _) => true
  | .writeEvent (.log _ _) => true
  | .extCall _ _ => true
  | .writeFile _ _ => true
  | _ => false

theorem midActShape_flags {a : Action} (h : midActShape a = true) :
    a.isErrorEvent = false ∧ a.isRegistryInsert = false ∧ a.isRemoveDir = false ∧
      a.isSetStatus = false ∧ a.isMkTempDir = false ∧ a.isDoneEvent = false := by
  cases a with
  | writeEvent e =>
    cases e <;> simp [Action.isErrorEvent, Action.isRegistryInsert, Action.isRemoveDir,
      Action.isSetStatus, Action.isMkTempDir, Action.isDoneEvent] <;> simp [midActShape] at h
  | _ =>
    simp_all [midActShape, Action.isErrorEvent, Action.isRegistryInsert, Action.isRemoveDir,
      Action.isSetStatus, Action.isMkTempDir, Action.isDoneEvent]

theorem mem_logEvents {a : Action} {o : ProcOutcome} (h : a ∈ logEvents o) :
    ∃ ch m, a = .writeEvent (.log ch m) := by
  unfold logEvents at h
  rcases List.mem_map.mp h with ⟨c, -, rfl⟩
  exact ⟨_, _, rfl⟩

theorem midActShape_of_mem_logEvents {a : Action} {o : ProcOutcome} (h : a ∈ logEvents o) :
    midActShape a = true := by
  obtain ⟨ch, m, rfl⟩ := mem_logEvents h
  rfl

theorem mid_of_mem_resolveActs {a : Action} {env : Env} {total idx callIdx : Nat}
    {seg : ParsedSegment} (ha : a ∈ resolveActs env total idx callIdx seg) :
    midActShape a = true := by
  unfold resolveActs at ha
  simp only [List.mem_cons] at ha
  rcases ha with rfl | rfl | ha
  · rfl
  · rfl
  · exact midActShape_of_mem_logEvents ha

theorem mid_of_mem_cutActs {a : Action} {env : Env} {total idx callIdx : Nat}
    {seg : ParsedSegment} {directUrl : JSString}
    (ha : a ∈ cutActs env total idx callIdx seg directUrl) : midActShape a = true := by
  unfold cutActs at ha
  simp only [List.mem_cons] at ha
  rcases ha with rfl | rfl | ha
  · rfl
  · rfl
  · exact midActShape_of_mem_logEvents ha

theorem mid_of_mem_stitchActs {a : Action} {env : Env} {nextCall : Nat}
    {segPaths : List JSString} (ha : a ∈ stitchActs env nextCall segPaths) :
    midActShape a = true := by
  unfold stitchActs at ha
  simp only [List.mem_cons] at ha
  rcases ha with rfl | rfl | rfl | ha
  · rfl
  · rfl
  · rfl
  · exact midActShape_of_mem_logEvents ha

theorem runSegLoop_cons_resolveError {env : Env} {total idx callIdx : Nat}
    {seg : ParsedSegment} {rest : List ParsedSegment} {acc : List JSString} {e : JSString}
    (h1 : runCommand (str ("yt-dlp")) (env.proc callIdx) = .error e) :
    runSegLoop env total (seg :: rest) idx callIdx acc =
      ⟨resolveActs env total idx callIdx seg, callIdx + 1, .error e⟩ := by
  rw [runSegLoop, h1]

theorem runSegLoop_cons_cutError {env : Env} {total idx callIdx : Nat}
    {seg : ParsedSegment} {rest : List ParsedSegment} {acc : List JSString}
    {directUrl e : JSString}
    (h1 : runCommand (str ("yt-dlp")) (env.proc callIdx) = .ok directUrl)
    (h2 : runCommand (str ("ffmpeg")) (env.proc (callIdx + 1)) = .error e) :
    runSegLoop env total (seg :: rest) idx callIdx acc =
      ⟨resolveActs env total idx callIdx seg ++ cutActs env total idx callIdx seg directUrl,
       callIdx + 2, .error e⟩ := by
  rw [runSegLoop, h1, h2]

theorem runSegLoop_cons_ok {env : Env} {total idx callIdx : Nat}
    {seg : ParsedSegment} {rest : List ParsedSegment} {acc : List JSString}
    {directUrl out : JSString}
    (h1 : runCommand (str ("yt-dlp")) (env.proc callIdx) = .ok directUrl)
    (h2 : runCommand (str ("ffmpeg")) (env.proc (callIdx + 1)) = .ok out) :
    runSegLoop env total (seg :: rest) idx callIdx acc =
      ⟨resolveActs env total idx callIdx seg ++ cutActs env total idx callIdx seg directUrl ++
         [downloadedAct total idx seg] ++
         (runSegLoop env total rest (idx + 1) (callIdx + 2)
           (segmentFilePath env.tempDir idx :: acc)).acts,
       (runSegLoop env total rest (idx + 1) (callIdx + 2)
         (segmentFilePath env.tempDir idx :: acc)).nextCall,
       (runSegLoop env total rest (idx + 1) (callIdx + 2)
         (segmentFilePath env.tempDir idx :: acc)).result⟩ := by
  rw [runSegLoop, h1, h2]

theorem runSegLoop_mid (env : Env) (total : Nat) :
    ∀ (segs : List ParsedSegment) (idx callIdx : Nat) (acc : List JSString),
      ∀ a ∈ (runSegLoop env total segs idx callIdx acc).acts, midActShape a = true := by
  intro segs
  induction segs with
  | nil =>
    intro idx callIdx acc a ha
    simp [runSegLoop] at ha
  | cons seg rest ih =>
    intro idx callIdx acc a ha
    rcases h1 : runCommand (str ("yt-dlp")) (env.proc callIdx) with e | directUrl
    · rw [runSegLoop_cons_resolveError h1] at ha
      exact mid_of_mem_resolveActs ha
    · rcases h2 : runCommand (str ("ffmpeg")) (env.proc (callIdx + 1)) with e | out
      · rw [runSegLoop_cons_cutError h1 h2] at ha
        rcases List.mem_append.mp ha with ha | ha
        · exact mid_of_mem_resolveActs ha
        · exact mid_of_mem_cutActs ha
      · rw [runSegLoop_cons_ok h1 h2] at ha
        rcases List.mem_append.mp ha with ha | ha
        · rcases List.mem_append.mp ha with ha | ha
          · rcases List.mem_append.mp ha with ha | ha
            · exact mid_of_mem_resolveActs ha
            · exact mid_of_mem_cutActs ha
          · simp only [List.mem_singleton] at ha
            subst ha
            rfl
        · exact ih (idx + 1) (callIdx + 2) _ a ha

theorem tryBlock_eq_resError {env : Env} {parsed : List ParsedSegment} {e : JSString}
    (hres : (segPart env parsed).result = .error e) :
    tryBlock env parsed = (segPart env parsed).acts ++ catchActions env e := by
  rw [tryBlock, hres]

theorem tryBlock_eq_stitchError {env : Env} {parsed : List ParsedSegment}
    {segPaths : List JSString} {e : JSString}
    (hres : (segPart env parsed).result = .ok segPaths)
    (h2 : runCommand (str ("ffmpeg")) (env.proc (segPart env parsed).nextCall) = .error e) :
    tryBlock env parsed = (segPart env parsed).acts ++
      stitchActs env (segPart env parsed).nextCall segPaths ++ catchActions env e := by
  rw [tryBlock, hres, h2]

theorem tryBlock_eq_success {env : Env} {parsed : List ParsedSegment}
    {out : JSString} {sp : List JSString}
    (hres : (segPart env parsed).result = .ok sp)
    (h2 : runCommand (str ("ffmpeg")) (env.proc (segPart env parsed).nextCall) = .ok out) :
    tryBlock env parsed = (segPart env parsed).acts ++
      stitchActs env (segPart env parsed).nextCall sp ++ successTail env := by
  rw [tryBlock, hres, h2]

theorem pipelineError_eq_resError {env : Env} {parsed : List ParsedSegment} {e : JSString}
    (hres : (segPart env parsed).result = .error e) :
    pipelineError env parsed = some e := by
  rw [pipelineError, hres]

theorem pipelineError_eq_stitchError {env : Env} {parsed : List ParsedSegment}
    {segPaths : List JSString} {e : JSString}
    (hres : (segPart env parsed).result = .ok segPaths)
    (h2 : runCommand (str ("ffmpeg")) (env.proc (segPart env parsed).nextCall) = .error e) :
    pipelineError env parsed = some e := by
  rw [pipelineError, hres, h2]

theorem pipelineError_eq_none {env : Env} {parsed : List ParsedSegment}
    {out : JSString} {sp : List JSString}
    (hres : (segPart env parsed).result = .ok sp)
    (h2 : runCommand (str ("ffmpeg")) (env.proc (segPart env parsed).nextCall) = .ok out) :
    pipelineError env parsed = none := by
  rw [pipelineError, hres, h2]

theorem tryBlock_error (env : Env) (parsed : List ParsedSegment) (e : JSString)
    (h : pipelineError env parsed = some e) :
    ∃ pre, tryBlock env parsed = pre ++ catchActions env e ∧
      ∀ a ∈ pre, midActShape a = true := by
  rcases hres : (segPart env parsed).result with e' | segPaths
  · have he := pipelineError_eq_resError hres
    rw [h] at he
    injection he with he
    subst he
    exact ⟨(segPart env parsed).acts, tryBlock_eq_resError hres,
      fun a ha => runSegLoop_mid env _ _ _ _ _ a ha⟩
  · rcases h2 : runCommand (str ("ffmpeg")) (env.proc (segPart env parsed).nextCall)
      with e' | out
    · have he := pipelineError_eq_stitchError hres h2
      rw [h] at he
      injection he with he
      subst he
      refine ⟨(segPart env parsed).acts ++ stitchActs env (segPart env parsed).nextCall segPaths,
        by rw [tryBlock_eq_stitchError hres h2, List.append_assoc], ?_⟩
      intro a ha
      rcases List.mem_append.mp ha with ha | ha
      · exact runSegLoop_mid env _ _ _ _ _ a ha
      · exact mid_of_mem_stitchActs ha
    · have he := pipelineError_eq_none hres h2
      rw [h] at he
      exact absurd he (by simp)

theorem tryBlock_ok (env : Env) (parsed : List ParsedSegment)
    (h : pipelineError env parsed = none) :
    ∃ pre, tryBlock env parsed = pre ++ successTail env ∧
      ∀ a ∈ pre, midActShape a = true := by
  rcases hres : (segPart env parsed).result with e' | segPaths
  · have he := pipelineError_eq_resError hres
    rw [h] at he
    exact absurd he (by simp)
  · rcases h2 : runCommand (str ("ffmpeg")) (env.proc (segPart env parsed).nextCall)
      with e' | out
    · have he := pipelineError_eq_stitchError hres h2
      rw [h] at he
      exact absurd he (by simp)
    · refine ⟨(segPart env parsed).acts ++ stitchActs env (segPart env parsed).nextCall segPaths,
        by rw [tryBlock_eq_success hres h2, List.append_assoc], ?_⟩
      intro a ha
      rcases List.mem_append.mp ha with ha | ha
      · exact runSegLoop_mid env _ _ _ _ _ a ha
      · exact mid_of_mem_stitchActs ha

/-! ### The validation loop stops at the first invalid row -/

theorem rowInvalid_false_elim {seg : SegmentInput} (h : rowInvalid seg = false) :
    urlOf seg ≠ [] ∧ ∃ s e, parseTimestamp seg.start = some s ∧
      parseTimestamp seg.endTs = some e ∧ jsGe s e = false := by
  unfold rowInvalid at h
  rw [Bool.or_eq_false_iff] at h
  rcases h with ⟨h1, h2⟩
  rw [decide_eq_false_iff_not] at h1
  refine ⟨h1, ?_⟩
  rcases hs : parseTimestamp seg.start with - | s
  · rw [hs] at h2
    simp at h2
  · rcases he : parseTimestamp seg.endTs with - | e
    · rw [hs, he] at h2
      simp at h2
    · rw [hs, he] at h2
      exact ⟨s, e, rfl, rfl, h2⟩

theorem validateSegments_cons_invalid {seg : SegmentInput} (rest : List SegmentInput)
    (k : Nat) (hbad : rowInvalid seg = true) :
    validateSegments (seg :: rest) k = .error (rowErrorMsg k (rowMsgTail seg)) := by
  by_cases hu : urlOf seg = []
  · simp only [validateSegments, rowMsgTail, if_pos hu]
  · simp only [validateSegments, rowMsgTail, if_neg hu]
    unfold rowInvalid at hbad
    rw [Bool.or_eq_true, decide_eq_true_eq] at hbad
    rcases hbad with hbad | hbad
    · exact absurd hbad hu
    · rcases hs : parseTimestamp seg.start with - | s
      · rfl
      · rcases he : parseTimestamp seg.endTs with - | e
        · rfl
        · simp only [hs, he] at hbad
          simp [hbad]

theorem validateSegments_cons_valid_error {seg : SegmentInput} {rest : List SegmentInput}
    {k : Nat} {msg : JSString} (hok : rowInvalid seg = false)
    (h : validateSegments rest (k + 1) = .error msg) :
    validateSegments (seg :: rest) k = .error msg := by
  obtain ⟨hu, s, e, hs, he, hge⟩ := rowInvalid_false_elim hok
  simp only [validateSegments, if_neg hu, hs, he, hge, Bool.false_eq_true, if_false, h]

theorem validateSegments_first_invalid (segs : List SegmentInput) :
    ∀ (k i : Nat) (seg : SegmentInput), segs[i]? = some seg → rowInvalid seg = true →
      (∀ j sj, j < i → segs[j]? = some sj → rowInvalid sj = false) →
      validateSegments segs k = .error (rowErrorMsg (k + i) (rowMsgTail seg)) := by
  induction segs with
  | nil =>
    intro k i seg hget
    simp at hget
  | cons s0 rest ih =>
    intro k i seg hget hbad hgood
    cases i with
    | zero =>
      simp only [List.getElem?_cons_zero, Option.some.injEq] at hget
      subst hget
      simpa using validateSegments_cons_invalid rest k hbad
    | succ j =>
      have h0 : rowInvalid s0 = false :=
        hgood 0 s0 (by omega) (by simp)
      have ih' := ih (k + 1) j seg (by simpa using hget) hbad
        (fun m sm hm hg => hgood (m + 1) sm (by omega) (by simpa using hg))
      rw [validateSegments_cons_valid_error h0 ih']
      have harith : k + 1 + j = k + (j + 1) := by omega
      rw [harith]

theorem validateSegments_error_of_invalid (segs : List SegmentInput) :
    ∀ k, (∃ (i : Nat) (seg : SegmentInput), segs[i]? = some seg ∧ rowInvalid seg = true) →
      ∃ msg, validateSegments segs k = .error msg := by
  induction segs with
  | nil =>
    rintro k ⟨i, seg, hget, -⟩
    simp at hget
  | cons s0 rest ih =>
    rintro k ⟨i, seg, hget, hbad⟩
    by_cases h0 : rowInvalid s0 = true
    · exact ⟨_, validateSegments_cons_invalid rest k h0⟩
    · have h0' : rowInvalid s0 = false := by
        rcases Bool.eq_false_or_eq_true (rowInvalid s0) with h | h
        · exact absurd h h0
        · exact h
      cases i with
      | zero =>
        simp only [List.getElem?_cons_zero, Option.some.injEq] at hget
        subst hget
        exact absurd hbad (by simp [h0'])
      | succ j =>
        obtain ⟨msg, hmsg⟩ := ih (k + 1) ⟨j, seg, by simpa using hget, hbad⟩
        exact ⟨msg, validateSegments_cons_valid_error h0' hmsg⟩

/-! ### Unfolding the process handler -/

theorem isEmpty_false_of_ne {segs : List SegmentInput} (hne : segs ≠ []) :
    segs.isEmpty = false := by
  cases segs with
  | nil => exact absurd rfl hne
  | cons a l => rfl

theorem processAfterHeaders_error (env : Env) {segs : List SegmentInput} {msg : JSString}
    (hne : segs ≠ []) (h : validateSegments segs 0 = .error msg) :
    processAfterHeaders env (.arr segs) =
      [Action.writeEvent (.error msg), Action.endResponse] := by
  simp only [processAfterHeaders, segmentsOf, isEmpty_false_of_ne hne, Bool.false_eq_true,
    if_false, h]

theorem processAfterHeaders_ok (env : Env) {segs : List SegmentInput}
    {parsed : List ParsedSegment} (hne : segs ≠ [])
    (h : validateSegments segs 0 = .ok parsed) :
    processAfterHeaders env (.arr segs) =
      Action.mkTempDir env.tempDir ::
      Action.writeEvent (.status (str ("starting")) (str ("Validating inputs"))) ::
      (tryBlock env parsed ++ [Action.endResponse]) := by
  simp only [processAfterHeaders, segmentsOf, isEmpty_false_of_ne hne, Bool.false_eq_true,
    if_false, h]

/-! ### The shape of a successful request trace -/

theorem processHandler_ok_eq (env : Env) (segs : List SegmentInput)
    (parsed : List ParsedSegment) (hval : validateSegments segs 0 = .ok parsed)
    (hne : segs ≠ []) (hok : pipelineError env parsed = none) :
    ∃ pre, processHandler env (.arr segs) =
        headerActions ++ Action.mkTempDir env.tempDir ::
          Action.writeEvent (.status (str ("starting")) (str ("Validating inputs"))) ::
          (pre ++ (successTail env ++ [Action.endResponse])) ∧
      ∀ a ∈ pre, midActShape a = true := by
  obtain ⟨pre, htb, hmid⟩ := tryBlock_ok env parsed hok
  refine ⟨pre, ?_, hmid⟩
  unfold processHandler
  rw [processAfterHeaders_ok env hne hval, htb]
  simp [List.append_assoc]

theorem success_insert_mem (env : Env) (segs : List SegmentInput)
    (parsed : List ParsedSegment) (hval : validateSegments segs 0 = .ok parsed)
    (hne : segs ≠ []) (hok : pipelineError env parsed = none) :
    Action.registryInsert env.uuid ⟨finalPath env.nowFinal, env.nowCreated, env.tempDir⟩ ∈
      processHandler env (.arr segs) := by
  obtain ⟨pre, heq, -⟩ := processHandler_ok_eq env segs parsed hval hne hok
  rw [heq]
  simp [successTail]

theorem success_done_mem (env : Env) (segs : List SegmentInput)
    (parsed : List ParsedSegment) (hval : validateSegments segs 0 = .ok parsed)
    (hne : segs ≠ []) (hok : pipelineError env parsed = none) :
    Action.writeEvent (.done env.uuid (str ("/api/download/") ++ env.uuid)) ∈
      processHandler env (.arr segs) := by
  obtain ⟨pre, heq, -⟩ := processHandler_ok_eq env segs parsed hval hne hok
  rw [heq]
  simp [successTail]

theorem success_no_removeDir (env : Env) (segs : List SegmentInput)
    (parsed : List ParsedSegment) (hval : validateSegments segs 0 = .ok parsed)
    (hne : segs ≠ []) (hok : pipelineError env parsed = none) :
    ∀ d, Action.removeDir d ∉ processHandler env (.arr segs) := by
  obtain ⟨pre, heq, hmid⟩ := processHandler_ok_eq env segs parsed hval hne hok
  intro d hd
  rw [heq] at hd
  simp only [List.mem_append, List.mem_cons, List.mem_singleton, headerActions,
    successTail, List.not_mem_nil, or_false] at hd
  rcases hd with (hd | hd | hd | hd) | hd | hd | hd | (hd | hd | hd) | hd <;>
    first
      | exact absurd hd (by simp)
      | (have hflag := (midActShape_flags (hmid _ hd)).2.2.1
         simp [Action.isRemoveDir] at hflag)

/-! ### C3 and C4: validation order and absence of external calls -/

/-- C3: for every submitted batch, when row `i` (0-based) is the first
structurally invalid segment — missing or empty URL, unparseable start or
end, or start at or above end — the handler emits exactly the error for that
row, whose message carries the 1-based index `i + 1`, and ends the stream;
later rows are never examined and no further event is emitted. -/
theorem validation_reports_first_invalid_row (env : Env) (segs : List SegmentInput)
    (i : Nat) (seg : SegmentInput) (hget : segs[i]? = some seg)
    (hbad : rowInvalid seg = true)
    (hgood : ∀ j sj, j < i → segs[j]? = some sj → rowInvalid sj = false) :
    processHandler env (.arr segs) = headerActions ++
      [Action.writeEvent (.error (rowErrorMsg i (rowMsgTail seg))), Action.endResponse] := by
  have hne : segs ≠ [] := by
    intro hc
    subst hc
    simp at hget
  have hval := validateSegments_first_invalid segs 0 i seg hget hbad hgood
  rw [Nat.zero_add] at hval
  unfold processHandler
  rw [processAfterHeaders_error env hne hval]

/-- A fixed environment used by the concrete witnesses. -/
def envW : Env := ⟨str ("uuid-w"), str ("/tmp/yt-stitch-w"), fun _ => ⟨none, 0, []⟩, 0, 0⟩

/-- The first row of the validation-ordering example in the spec: empty URL. -/
def rowEmptyUrl : SegmentInput := ⟨some (str ("")), some (str ("0")), some (str ("1"))⟩

/-- The second row of the validation-ordering example: unparseable start. -/
def rowBadStart : SegmentInput := ⟨some (str ("x")), some (str ("bad")), some (str ("1"))⟩

theorem validation_reports_first_invalid_row_witness :
    processHandler envW (.arr [rowEmptyUrl, rowBadStart]) = headerActions ++
      [Action.writeEvent (.error (rowErrorMsg 0 (rowMsgTail rowEmptyUrl))),
       Action.endResponse] :=
  validation_reports_first_invalid_row envW [rowEmptyUrl, rowBadStart] 0 rowEmptyUrl
    rfl (by with_unfolding_all decide) (fun j sj hj _ => absurd hj (by omega))

/-- C4: a batch containing any structurally invalid segment is rejected
during validation and the handler performs no external invocation at all —
neither the resolver nor the transcoder is ever spawned. -/
theorem invalid_batch_no_external_calls (env : Env) (segs : List SegmentInput)
    (h : ∃ (i : Nat) (seg : SegmentInput), segs[i]? = some seg ∧ rowInvalid seg = true) :
    (processHandler env (.arr segs)).all (fun a => !a.isExtCall) = true := by
  obtain ⟨i, seg, hget, hbad⟩ := h
  have hne : segs ≠ [] := by
    intro hc
    subst hc
    simp at hget
  obtain ⟨msg, hmsg⟩ := validateSegments_error_of_invalid segs 0 ⟨i, seg, hget, hbad⟩
  unfold processHandler
  rw [processAfterHeaders_error env hne hmsg]
  simp [headerActions, Action.isExtCall]

theorem invalid_batch_no_external_calls_witness :
    (processHandler envW (.arr [rowEmptyUrl, rowBadStart])).all
      (fun a => !a.isExtCall) = true :=
  invalid_batch_no_external_calls envW [rowEmptyUrl, rowBadStart]
    ⟨0, rowEmptyUrl, rfl, by with_unfolding_all decide⟩

/-! ### C5: failure handling after validation -/

/-- C5: for every request that passes validation and then fails at any
pipeline stage (a resolver, cut or concat command failing), the handler
emits exactly one error event — carrying the failure message, with the
generic fallback when that message is empty — as the last event before the
cleanup, attempts the recursive removal of the request temp directory, never
inserts anything into the job registry, and ends the stream. -/
theorem post_validation_failure_cleanup (env : Env) (segs : List SegmentInput)
    (parsed : List ParsedSegment) (e : JSString)
    (hval : validateSegments segs 0 = .ok parsed) (hne : segs ≠ [])
    (hfail : pipelineError env parsed = some e) :
    ∃ pre, processHandler env (.arr segs) =
        headerActions ++ Action.mkTempDir env.tempDir ::
          Action.writeEvent (.status (str ("starting")) (str ("Validating inputs"))) ::
          (pre ++
            [Action.writeEvent (.error (if e = [] then str ("Processing failed") else e)),
             Action.removeDir env.tempDir, Action.endResponse]) ∧
      ∀ a ∈ pre, a.isErrorEvent = false ∧ a.isRegistryInsert = false := by
  obtain ⟨pre, htb, hmid⟩ := tryBlock_error env parsed e hfail
  refine ⟨pre, ?_, fun a ha =>
    ⟨(midActShape_flags (hmid a ha)).1, (midActShape_flags (hmid a ha)).2.1⟩⟩
  unfold processHandler
  rw [processAfterHeaders_ok env hne hval, htb, catchActions]
  simp [List.append_assoc]

/-- The environment of the concrete failing run: the first spawned command
exits 1 with stderr text `boom`. -/
def envF : Env := ⟨str ("uuid-f"), str ("/tmp/yt-stitch-f"),
  fun _ => ⟨none, 1, [(true, str ("boom"))]⟩, 0, 0⟩

/-- The environment of the concrete successful run: every spawned command
exits 0 with stdout text `u`. -/
def envS : Env := ⟨str ("uuid-s"), str ("/tmp/yt-stitch-s"),
  fun _ => ⟨none, 0, [(false, str ("u"))]⟩, 1000, 1001⟩

/-- A structurally valid request row. -/
def rowOK : SegmentInput := ⟨some (str ("x")), some (str ("0")), some (str ("1"))⟩

/-- The parsed form of `rowOK`. -/
def parsedRowOK : ParsedSegment := ⟨str ("x"), JSNum.val 0, JSNum.val 1⟩

theorem post_validation_failure_cleanup_witness :
    ∃ pre, processHandler envF (.arr [rowOK]) =
        headerActions ++ Action.mkTempDir envF.tempDir ::
          Action.writeEvent (.status (str ("starting")) (str ("Validating inputs"))) ::
          (pre ++
            [Action.writeEvent (.error
               (if str ("boom") = ([] : JSString) then str ("Processing failed")
                else str ("boom"))),
             Action.removeDir envF.tempDir, Action.endResponse]) ∧
      ∀ a ∈ pre, a.isErrorEvent = false ∧ a.isRegistryInsert = false :=
  post_validation_failure_cleanup envF [rowOK] [parsedRowOK] (str ("boom"))
    (by with_unfolding_all decide) (by simp) (by with_unfolding_all decide)

/-! ### C6: the fate of the scratch directory -/

/-- C6 counterexample: a fully successful request — it emits a `done`
event — performs no removal of its scratch directory at all; the handler
removes the temp directory only on the failure path, and on success leaves
it to the background eviction. -/
theorem success_path_keeps_tempdir :
    (∀ d, Action.removeDir d ∉ processHandler envS (.arr [rowOK])) ∧
    Action.writeEvent (.done envS.uuid (str ("/api/download/") ++ envS.uuid)) ∈
      processHandler envS (.arr [rowOK]) :=
  ⟨success_no_removeDir envS [rowOK] [parsedRowOK] (by with_unfolding_all decide)
     (by simp) (by with_unfolding_all decide),
   success_done_mem envS [rowOK] [parsedRowOK] (by with_unfolding_all decide)
     (by simp) (by with_unfolding_all decide)⟩

/-- C6 amended: the scratch directory is removed by the handler only on the
failure path.  On success it is retained, recorded in the inserted job
entry, and removed later by `cleanupOldJobs` once the job has expired. -/
theorem tempdir_removal_lifecycle (env : Env) (segs : List SegmentInput)
    (parsed : List ParsedSegment)
    (hval : validateSegments segs 0 = .ok parsed) (hne : segs ≠ []) :
    ((∃ e, pipelineError env parsed = some e) →
        Action.removeDir env.tempDir ∈ processHandler env (.arr segs)) ∧
    (pipelineError env parsed = none →
        (∀ d, Action.removeDir d ∉ processHandler env (.arr segs)) ∧
        Action.registryInsert env.uuid
            ⟨finalPath env.nowFinal, env.nowCreated, env.tempDir⟩ ∈
          processHandler env (.arr segs)) ∧
    (∀ (now : Nat) (jobs : Registry) (id : JSString) (info : JobInfo),
        lookupJob jobs id = some info → jobExpired now info = true → info.tempDir ≠ [] →
        Action.removeDir info.tempDir ∈ (cleanupOldJobs now jobs).2) := by
  refine ⟨?_, ?_, ?_⟩
  · rintro ⟨e, hfail⟩
    obtain ⟨pre, htb, -⟩ := tryBlock_error env parsed e hfail
    unfold processHandler
    rw [processAfterHeaders_ok env hne hval, htb, catchActions]
    simp
  · intro hok
    exact ⟨success_no_removeDir env segs parsed hval hne hok,
      success_insert_mem env segs parsed hval hne hok⟩
  · intro now jobs id info hlook hexp htd
    unfold lookupJob at hlook
    rcases hfind : jobs.find? (fun kv => decide (kv.1 = id)) with - | kv
    · rw [hfind] at hlook
      simp at hlook
    · rw [hfind] at hlook
      simp only [Option.some.injEq] at hlook
      have hmem : kv ∈ jobs := List.mem_of_find?_eq_some hfind
      unfold cleanupOldJobs
      refine List.mem_flatMap.mpr ⟨kv, List.mem_filter.mpr ⟨hmem, by rw [hlook]; exact hexp⟩, ?_⟩
      rw [hlook, if_neg htd]
      simp

/-- The job entry used by the concrete eviction witness. -/
def jobW : JobInfo := ⟨str ("server/public/stitch-0.mp4"), 0, str ("/tmp/yt-stitch-old")⟩

theorem tempdir_removal_lifecycle_witness :
    Action.removeDir envF.tempDir ∈ processHandler envF (.arr [rowOK]) ∧
    (∀ d, Action.removeDir d ∉ processHandler envS (.arr [rowOK])) ∧
    Action.removeDir jobW.tempDir ∈ (cleanupOldJobs 3600001 [(str ("j1"), jobW)]).2 :=
  ⟨(tempdir_removal_lifecycle envF [rowOK] [parsedRowOK]
      (by with_unfolding_all decide) (by simp)).1
      ⟨str ("boom"), by with_unfolding_all decide⟩,
   ((tempdir_removal_lifecycle envS [rowOK] [parsedRowOK]
      (by with_unfolding_all decide) (by simp)).2.1
      (by with_unfolding_all decide)).1,
   (tempdir_removal_lifecycle envS [rowOK] [parsedRowOK]
      (by with_unfolding_all decide) (by simp)).2.2
      3600001 [(str ("j1"), jobW)] (str ("j1")) jobW (by decide) (by decide) (by decide)⟩

/-! ### C7: the download endpoint and eviction -/

theorem lookupJob_eq_none_of_all_ne {jobs : Registry} {id : JSString}
    (h : ∀ kv ∈ jobs, kv.1 ≠ id) : lookupJob jobs id = none := by
  have hf : jobs.find? (fun kv => decide (kv.1 = id)) = none :=
    List.find?_eq_none.mpr fun kv hkv => by simp [h kv hkv]
  rw [lookupJob, hf]

theorem lookupJob_cleanup_expired {now : Nat} {jobs : Registry} {id : JSString}
    {info : JobInfo} (hnodup : (jobs.map Prod.fst).Nodup)
    (hlook : lookupJob jobs id = some info) (hexp : jobExpired now info = true) :
    lookupJob (cleanupOldJobs now jobs).1 id = none := by
  induction jobs with
  | nil => simp [lookupJob] at hlook
  | cons kv rest ih =>
    rw [List.map_cons, List.nodup_cons] at hnodup
    obtain ⟨hnotin, hnodup2⟩ := hnodup
    by_cases hid : kv.1 = id
    · have hf : (kv :: rest).find? (fun x => decide (x.1 = id)) = some kv :=
        List.find?_cons_of_pos _ (by simp [hid])
      have hl : lookupJob (kv :: rest) id = some kv.2 := by
        unfold lookupJob
        rw [hf]
      rw [hl] at hlook
      rw [Option.some.injEq] at hlook
      unfold cleanupOldJobs
      rw [List.filter_cons, if_neg (by rw [hlook, hexp]; simp)]
      apply lookupJob_eq_none_of_all_ne
      intro kv2 hkv2
      intro hc
      exact hnotin (by
        rw [hid, ← hc]
        exact List.mem_map_of_mem Prod.fst (List.mem_of_mem_filter hkv2))
    · have hf : (kv :: rest).find? (fun x => decide (x.1 = id)) =
          rest.find? (fun x => decide (x.1 = id)) :=
        List.find?_cons_of_neg _ (by simp [hid])
      have hl : lookupJob rest id = some info := by
        unfold lookupJob at hlook ⊢
        rw [hf] at hlook
        exact hlook
      have hrest := ih hnodup2 hl
      unfold cleanupOldJobs at hrest ⊢
      rw [List.filter_cons]
      by_cases hkvexp : (!jobExpired now kv.2) = true
      · rw [if_pos hkvexp]
        unfold lookupJob at hrest ⊢
        have hf2 : (kv :: (cleanupOldJobs now rest).1).find? (fun x => decide (x.1 = id)) =
            (cleanupOldJobs now rest).1.find? (fun x => decide (x.1 = id)) :=
          List.find?_cons_of_neg _ (by simp [hid])
        unfold cleanupOldJobs at hf2
        rw [hf2]
        exact hrest
      · rw [if_neg hkvexp]
        exact hrest

set_option maxRecDepth 8192 in
/-- C7 counterexample: a job whose age exceeds the one-hour retention window
but which the 15-minute eviction timer has not yet removed is still in the
registry, so the download endpoint serves its artifact instead of returning
404 — the endpoint checks only map membership, never the age. -/
theorem expired_unevicted_id_still_served :
    retentionMs < 3600001 - jobW.created ∧
    downloadHandler [(str ("job1"), jobW)] (str ("job1")) false =
      [Action.sendFile jobW.path] ∧
    (downloadHandler [(str ("job1"), jobW)] (str ("job1")) false).all
      (fun a => !a.isSetStatus) = true := by
  refine ⟨by with_unfolding_all decide, by with_unfolding_all decide,
    by with_unfolding_all decide⟩

/-- C7 amended: an id absent from the registry map gets a 404 JSON response;
an id present in the map gets the artifact as an attachment regardless of
its age; an expired id yields 404 only after a `cleanupOldJobs` pass has run
at a time when its age exceeded the retention window and removed it. -/
theorem download_lookup_behavior (jobs : Registry) (id : JSString) (now : Nat) (tf : Bool)
    (hnodup : (jobs.map Prod.fst).Nodup) :
    (lookupJob jobs id = none →
        downloadHandler jobs id tf =
          [Action.setStatus 404, Action.sendJson (str ("Not found"))]) ∧
    (∀ info, lookupJob jobs id = some info →
        downloadHandler jobs id false = [Action.sendFile info.path]) ∧
    (∀ info, lookupJob jobs id = some info → jobExpired now info = true →
        downloadHandler (cleanupOldJobs now jobs).1 id tf =
          [Action.setStatus 404, Action.sendJson (str ("Not found"))]) := by
  refine ⟨?_, ?_, ?_⟩
  · intro h
    unfold downloadHandler
    rw [h]
  · intro info h
    unfold downloadHandler
    rw [h]
    simp
  · intro info h hexp
    have hnone := lookupJob_cleanup_expired hnodup h hexp
    unfold downloadHandler
    rw [hnone]

set_option maxRecDepth 8192 in
theorem download_lookup_behavior_witness :
    downloadHandler [] (str ("nope")) false =
        [Action.setStatus 404, Action.sendJson (str ("Not found"))] ∧
    downloadHandler [(str ("job1"), jobW)] (str ("job1")) false =
        [Action.sendFile jobW.path] ∧
    downloadHandler (cleanupOldJobs 3600001 [(str ("job1"), jobW)]).1 (str ("job1")) false =
        [Action.setStatus 404, Action.sendJson (str ("Not found"))] :=
  ⟨(download_lookup_behavior [] (str ("nope")) 0 false (by decide)).1
     (by with_unfolding_all decide),
   (download_lookup_behavior [(str ("job1"), jobW)] (str ("job1")) 0 false
     (by with_unfolding_all decide)).2.1 jobW (by with_unfolding_all decide),
   (download_lookup_behavior [(str ("job1"), jobW)] (str ("job1")) 3600001 false
     (by with_unfolding_all decide)).2.2 jobW (by with_unfolding_all decide)
     (by with_unfolding_all decide)⟩

/-! ### C8: the final artifact filename -/

/-- The second concrete successful environment: a different job id and temp
directory, but the same `Date.now()` reading at the final copy. -/
def envS2 : Env := ⟨str ("uuid-s2"), str ("/tmp/yt-stitch-s2"),
  fun _ => ⟨none, 0, [(false, str ("u"))]⟩, 1000, 2002⟩

/-- C8 counterexample: two distinct jobs — different generated ids —
completing in the same millisecond both copy their output to the same
artifact path, because the filename is `stitch-` Date.now `.mp4` and not a
collision-resistant token; the second copy overwrites the first. -/
theorem same_millisecond_filename_collision :
    envS.uuid ≠ envS2.uuid ∧
    Action.registryInsert envS.uuid ⟨finalPath 1000, envS.nowCreated, envS.tempDir⟩ ∈
      processHandler envS (.arr [rowOK]) ∧
    Action.registryInsert envS2.uuid ⟨finalPath 1000, envS2.nowCreated, envS2.tempDir⟩ ∈
      processHandler envS2 (.arr [rowOK]) :=
  ⟨by decide,
   success_insert_mem envS [rowOK] [parsedRowOK] (by with_unfolding_all decide)
     (by simp) (by with_unfolding_all decide),
   success_insert_mem envS2 [rowOK] [parsedRowOK] (by with_unfolding_all decide)
     (by simp) (by with_unfolding_all decide)⟩

/-- C8 amended: the final artifact paths of two successful jobs are distinct
exactly when their `Date.now()` readings at copy time differ; the name is
collision-resistant only across distinct milliseconds (the collision-resistant
random token is the job id, not the filename). -/
theorem final_path_distinct_of_now_ne {t1 t2 : Nat} (h : t1 ≠ t2) :
    finalPath t1 ≠ finalPath t2 := by
  intro hc
  apply h
  unfold finalPath finalName at hc
  have h1 := List.append_cancel_left hc
  injection h1 with hhead h2
  have h3 := List.append_cancel_right h2
  have h4 := List.append_cancel_left h3
  exact natToChars_injective h4

theorem final_path_distinct_of_now_ne_witness : finalPath 1000 ≠ finalPath 1001 :=
  final_path_distinct_of_now_ne (by decide)

/-! ### C9: missing or non-array segments field -/

/-- C9: a request body without a segments field, or whose segments field is
not an array, is handled exactly like an empty batch: one error event with
the message `No segments provided`, then the stream ends; no temp directory
is created and no job is registered. -/
theorem non_array_segments_like_empty (env : Env) (f : SegmentsField)
    (h : f = SegmentsField.missing ∨ f = SegmentsField.notArray ∨
      f = SegmentsField.arr []) :
    processHandler env f = headerActions ++
        [Action.writeEvent (.error (str ("No segments provided"))), Action.endResponse] ∧
    processHandler env f = processHandler env (.arr []) ∧
    (processHandler env f).all (fun a => !a.isMkTempDir) = true ∧
    (processHandler env f).all (fun a => !a.isRegistryInsert) = true := by
  have key : ∀ g, segmentsOf g = [] →
      processHandler env g = headerActions ++
        [Action.writeEvent (.error (str ("No segments provided"))), Action.endResponse] := by
    intro g hg
    unfold processHandler processAfterHeaders
    rw [hg]
    rfl
  rcases h with rfl | rfl | rfl
  · exact ⟨key SegmentsField.missing rfl,
      by rw [key SegmentsField.missing rfl, key (SegmentsField.arr []) rfl],
      by rw [key SegmentsField.missing rfl]; decide,
      by rw [key SegmentsField.missing rfl]; decide⟩
  · exact ⟨key SegmentsField.notArray rfl,
      by rw [key SegmentsField.notArray rfl, key (SegmentsField.arr []) rfl],
      by rw [key SegmentsField.notArray rfl]; decide,
      by rw [key SegmentsField.notArray rfl]; decide⟩
  · exact ⟨key (SegmentsField.arr []) rfl, rfl,
      by rw [key (SegmentsField.arr []) rfl]; decide,
      by rw [key (SegmentsField.arr []) rfl]; decide⟩

theorem non_array_segments_like_empty_witness :
    processHandler envW SegmentsField.missing = headerActions ++
        [Action.writeEvent (.error (str ("No segments provided"))), Action.endResponse] ∧
    processHandler envW SegmentsField.missing = processHandler envW (.arr []) ∧
    (processHandler envW SegmentsField.missing).all (fun a => !a.isMkTempDir) = true ∧
    (processHandler envW SegmentsField.missing).all (fun a => !a.isRegistryInsert) = true :=
  non_array_segments_like_empty envW SegmentsField.missing (Or.inl rfl)

/-! ### C10: the streaming response shape -/

theorem tryBlock_no_setStatus (env : Env) (parsed : List ParsedSegment) :
    ∀ a ∈ tryBlock env parsed, a.isSetStatus = false := by
  rcases hp : pipelineError env parsed with - | e
  · obtain ⟨pre, htb, hmid⟩ := tryBlock_ok env parsed hp
    rw [htb]
    intro a ha
    rcases List.mem_append.mp ha with ha | ha
    · exact (midActShape_flags (hmid a ha)).2.2.2.1
    · simp only [successTail, List.mem_cons, List.not_mem_nil, or_false] at ha
      rcases ha with rfl | rfl | rfl <;> rfl
  · obtain ⟨pre, htb, hmid⟩ := tryBlock_error env parsed e hp
    rw [htb]
    intro a ha
    rcases List.mem_append.mp ha with ha | ha
    · exact (midActShape_flags (hmid a ha)).2.2.2.1
    · simp only [catchActions, List.mem_cons, List.not_mem_nil, or_false] at ha
      rcases ha with rfl | rfl <;> rfl

/-- C10: every response of the process endpoint sends the three streaming
headers and flushes them as its very first four actions, before the segments
field is even examined, and the handler never sets an HTTP status code — all
failures, validation failures included, are reported only as in-band error
events, so the HTTP status is the default 200. -/
theorem process_streams_headers_first_no_status (env : Env) (f : SegmentsField) :
    processHandler env f = headerActions ++ processAfterHeaders env f ∧
    headerActions =
      [Action.setHeader (str ("Content-Type")) (str ("application/x-ndjson")),
       Action.setHeader (str ("Cache-Control")) (str ("no-cache")),
       Action.setHeader (str ("Connection")) (str ("keep-alive")),
       Action.flushHeaders] ∧
    ∀ a ∈ processHandler env f, a.isSetStatus = false := by
  refine ⟨rfl, rfl, ?_⟩
  intro a ha
  unfold processHandler at ha
  rcases List.mem_append.mp ha with ha | ha
  · simp only [headerActions, List.mem_cons, List.not_mem_nil, or_false] at ha
    rcases ha with rfl | rfl | rfl | rfl <;> rfl
  · unfold processAfterHeaders at ha
    split at ha
    · simp only [List.mem_cons, List.not_mem_nil, or_false] at ha
      rcases ha with rfl | rfl <;> rfl
    · split at ha
      · simp only [List.mem_cons, List.not_mem_nil, or_false] at ha
        rcases ha with rfl | rfl <;> rfl
      · simp only [List.mem_cons] at ha
        rcases ha with rfl | rfl | ha
        · rfl
        · rfl
        · rcases List.mem_append.mp ha with ha | ha
          · exact tryBlock_no_setStatus env _ a ha
          · simp only [List.mem_singleton] at ha
            subst ha
            rfl

end YtStitch
